import Mathlib

/-!
# arq-keys: password check for `encrypted_master_keys.dat`

A shallow embedding of `src/arq-keys.go` (functions `deriveKey`,
`calculateHMACSHA256` and `main`) together with the library routines it calls
(`hmac.New`/`Sum`, `hmac.Equal`, `pbkdf2.Key`).  The two hash functions handed
to the libraries (`sha1.New`, `sha256.New`) are parameters of the model: every
theorem holds for every hash with a positive, fixed digest size.

Go slices of the file buffer are modelled as windows `(off, len, cap)` into one
backing array, so that bounds checks against the capacity and the in-place
behaviour of `append` are the ones of the Go runtime.
-/

namespace ArqKeys

/-! ## Bytes and hashes -/

/-- One byte. -/
abbrev Byte := Fin 256

/-- A byte string: the contents of a `[]byte` or of a Go `string`. -/
abbrev Bytes := List Byte

/-- A `hash.Hash` implementation, seen as a function from everything written to
the digest that `Sum` appends.  `size` is `Size()`, `blockSize` is
`BlockSize()`. -/
structure Hash where
  size : Nat
  blockSize : Nat
  digest : Bytes → Bytes
  size_pos : 0 < size
  digest_length : ∀ m, (digest m).length = size

/-- The call `hmac.New(h, key)` followed by `Write(message)` and `Sum(nil)`: a key longer
than the block size is hashed first, the key is copied into the zeroed pads
`ipad`/`opad` of `blockSize` bytes, which are xored with `0x36`/`0x5c`; the
result is `H(opad ++ H(ipad ++ message))`. -/
def hmacSum (h : Hash) (key message : Bytes) : Bytes :=
  let key1 := if key.length > h.blockSize then h.digest key else key
  let padded := (key1 ++ List.replicate h.blockSize 0).take h.blockSize
  let ipad := padded.map (fun b => b ^^^ 0x36)
  let opad := padded.map (fun b => b ^^^ 0x5c)
  h.digest (opad ++ h.digest (ipad ++ message))

/-- The call `hmac.Equal(mac1, mac2)`: true exactly when both have the same length and
the same contents (the comparison is constant-time, which is not modelled). -/
def hmacEqual (mac1 mac2 : Bytes) : Bool := decide (mac1 = mac2)

/-- The four bytes `byte(block >> 24), byte(block >> 16), byte(block >> 8),
byte(block)` that `pbkdf2.Key` appends to the salt. -/
def blockIndexBytes (block : Nat) : Bytes :=
  [Fin.ofNat (block >>> 24), Fin.ofNat (block >>> 16), Fin.ofNat (block >>> 8), Fin.ofNat block]

/-- The inner loop of `pbkdf2.Key`, run `k` times on the pair `(U, T)`:
`U = PRF(U)` and then `T[x] ^= U[x]` for every index `x`. -/
def pbkdf2Rounds (h : Hash) (password : Bytes) : Nat → Bytes × Bytes → Bytes × Bytes
  | 0, s => s
  | k + 1, (u, t) =>
    let u1 := hmacSum h password u
    pbkdf2Rounds h password k (u1, List.zipWith (fun a b => a ^^^ b) t u1)

/-- One block `T_block = U_1 ^ U_2 ^ ... ^ U_iter` of `pbkdf2.Key`, with
`U_1 = PRF(salt ++ INT(block))`; the loop `for n := 2; n <= iter; n++` runs
`iter - 1` times. -/
def pbkdf2Block (h : Hash) (password salt : Bytes) (iter block : Nat) : Bytes :=
  let u1 := hmacSum h password (salt ++ blockIndexBytes block)
  (pbkdf2Rounds h password (iter - 1) (u1, u1)).2

/-- The blocks `first, first + 1, ..., first + count - 1` appended one after the
other, as the outer loop of `pbkdf2.Key` appends them to `dk`. -/
def pbkdf2Blocks (h : Hash) (password salt : Bytes) (iter : Nat) : Nat → Nat → Bytes
  | _, 0 => []
  | first, count + 1 =>
    pbkdf2Block h password salt iter first ++ pbkdf2Blocks h password salt iter (first + 1) count

/-- The call `pbkdf2.Key(password, salt, iter, keyLen, h)`: `numBlocks` blocks of
`hashLen` bytes, numbered from 1, cut to `dk[:keyLen]`. -/
def pbkdf2Key (h : Hash) (password salt : Bytes) (iter keyLen : Nat) : Bytes :=
  let hashLen := h.size
  let numBlocks := (keyLen + hashLen - 1) / hashLen
  (pbkdf2Blocks h password salt iter 1 numBlocks).take keyLen

/-! ## The two helper functions of the program -/

/-- The function `deriveKey(password, salt, iterations, keyLen)`, with `sha1` standing for
`sha1.New`. -/
def deriveKey (sha1 : Hash) (password salt : Bytes) (iterations keyLen : Nat) : Bytes :=
  pbkdf2Key sha1 password salt iterations keyLen

/-- The function `calculateHMACSHA256(message, key)`, with `sha256` standing for
`sha256.New`: the message is the first argument, the key the second. -/
def calculateHMACSHA256 (sha256 : Hash) (message : Bytes) (key : Bytes) : Bytes :=
  hmacSum sha256 key message

/-! ## Runs: trace and outcome -/

/-- How a run stops before `main` returns. -/
inductive Halt
  /-- The call `os.Exit(code)`. -/
  | exit (code : Nat)
  /-- The call `panic(err)` with the error of `os.ReadFile`. -/
  | panicError (err : String)
  /-- The run-time panic "slice bounds out of range" of a slice expression
  with low index `lo` and high index `hi` (the length of the operand when the
  expression has no high index). -/
  | panicSliceBounds (lo hi : Int)
  deriving DecidableEq, Repr

/-- What a run does that can be seen from outside, in order. -/
inductive Event
  /-- The call `os.ReadFile(path)`. -/
  | readFile (path : Bytes)
  /-- The call `fmt.Println(text)`; `fmt.Println()` is `println ""`. -/
  | println (text : String)
  /-- The call `fmt.Printf(format, args...)` with byte-slice arguments. -/
  | printf (format : String) (args : List Bytes)
  /-- The call `fmt.Printf(format, n)` with an integer argument. -/
  | printfInt (format : String) (n : Nat)
  deriving DecidableEq, Repr

/-- A program: the events it produced and either its value or the way it
stopped. -/
structure Prog (α : Type) where
  trace : List Event
  result : Except Halt α

/-- Sequencing: the second part runs only if the first did not stop. -/
def Prog.bind {α β : Type} (m : Prog α) (f : α → Prog β) : Prog β :=
  match m.result with
  | .ok a => ⟨m.trace ++ (f a).trace, (f a).result⟩
  | .error e => ⟨m.trace, .error e⟩

instance : Monad Prog where
  pure a := ⟨[], .ok a⟩
  bind := Prog.bind

/-- Produce one event. -/
def emit (e : Event) : Prog Unit := ⟨[e], .ok ()⟩

/-- Stop the run. -/
def halt {α : Type} (h : Halt) : Prog α := ⟨[], .error h⟩

/-- An operation that may panic. -/
def check {α : Type} (x : Except Halt α) : Prog α := ⟨[], x⟩

/-! ## Go slices of the file buffer -/

/-- A slice header: a window into a backing array. -/
structure Slice where
  off : Nat
  len : Nat
  cap : Nat
  deriving DecidableEq, Repr

/-- The bytes a slice shows of the backing array `mem`. -/
def Slice.read (s : Slice) (mem : Bytes) : Bytes := (mem.drop s.off).take s.len

/-- The slice expression `s[lo:hi]`: panics unless `0 <= lo <= hi <= cap(s)`. -/
def Slice.slice (s : Slice) (lo hi : Int) : Except Halt Slice :=
  if 0 ≤ lo ∧ lo ≤ hi ∧ hi ≤ s.cap then
    .ok ⟨s.off + lo.toNat, (hi - lo).toNat, s.cap - lo.toNat⟩
  else .error (.panicSliceBounds lo hi)

/-- The slice expression `s[:hi]`, that is `s[0:hi]`. -/
def Slice.sliceTo (s : Slice) (hi : Int) : Except Halt Slice := s.slice 0 hi

/-- The slice expression `s[lo:]`, that is `s[lo:len(s)]`: panics unless
`0 <= lo <= len(s)`. -/
def Slice.sliceFrom (s : Slice) (lo : Int) : Except Halt Slice :=
  if 0 ≤ lo ∧ lo ≤ s.len then
    .ok ⟨s.off + lo.toNat, s.len - lo.toNat, s.cap - lo.toNat⟩
  else .error (.panicSliceBounds lo s.len)

/-- The expression `b[lo:]` on a byte string held by value (its bounds check
uses the length only). -/
def bytesFrom (b : Bytes) (lo : Int) : Except Halt Bytes :=
  if 0 ≤ lo ∧ lo ≤ b.length then .ok (b.drop lo.toNat)
  else .error (.panicSliceBounds lo b.length)

/-- The call `append(s, t...)` for two windows of the array `mem`: when the
capacity of `s` suffices the bytes of `t` are copied (as by `memmove`) right
after `s` in the same array and the result is the longer window; otherwise a
new array is allocated and `mem` is untouched.  Returns the array afterwards
and the bytes of the result. -/
def goAppend (mem : Bytes) (s t : Slice) : Bytes × Bytes :=
  let src := t.read mem
  if s.len + t.len ≤ s.cap then
    let mem1 := mem.take (s.off + s.len) ++ src ++ mem.drop (s.off + s.len + src.length)
    (mem1, (Slice.mk s.off (s.len + t.len) s.cap).read mem1)
  else (mem, s.read mem ++ src)

/-- What `os.ReadFile` returns on success: `data` is the file (the slice's
`len` bytes), `spare` the rest of the backing array up to its capacity. -/
structure FileBuf where
  data : Bytes
  spare : Bytes

/-- The backing array of the returned slice. -/
def FileBuf.mem (f : FileBuf) : Bytes := f.data ++ f.spare

/-- The returned slice header. -/
def FileBuf.slice (f : FileBuf) : Slice := ⟨0, f.data.length, f.data.length + f.spare.length⟩

/-- The environment of a run: `os.Args` (program name first) and the result of
`os.ReadFile` for every path. -/
structure World where
  args : List Bytes
  readFile : Bytes → Except String FileBuf

/-! ## The program -/

/-- The usage line. -/
def usageText : String := "Usage: arq-keys <path-to-encrypted_master_keys.dat> <password>"

/-- The format `byteCountLabel`. -/
def byteCountLabel : String := " (%d bytes)\n"

/-- The verdict line of the `if` branch. -/
def noMatchText : String := "No match"

/-- The verdict line of the `else` branch. -/
def matchText : String := "*****  Match!!!!!!  *****"

/-- The function `main`, statement by statement.  `sha1` and `sha256` stand for
`sha1.New` and `sha256.New`; `mem` is the backing array of `fileBytes`, which
every slice of the file shares. -/
def main (sha1 sha256 : Hash) (w : World) : Prog Unit := do
  if w.args.length < 3 then
    emit (.println usageText)
    halt (.exit 1)
  let path := w.args.getD 1 []
  let password := w.args.getD 2 []
  emit (.readFile path)
  let file ← match w.readFile path with
    | .ok f => pure f
    | .error err => halt (.panicError err)
  let mem := file.mem
  let fileBytes := file.slice
  emit (.printf "File bytes:\t\t %x" [fileBytes.read mem])
  emit (.printfInt byteCountLabel fileBytes.len)
  emit (.println "------------")
  emit (.println "File parts according to docs:")
  let header ← check (fileBytes.sliceTo 25)
  emit (.printf "Header:\t\t\t %x (or %s in UTF-8)" [header.read mem, header.read mem])
  emit (.printfInt byteCountLabel header.len)
  let salt ← check (fileBytes.slice 25 33)
  emit (.printf "Salt:\t\t\t %x" [salt.read mem])
  emit (.printfInt byteCountLabel salt.len)
  let hmacSha256 ← check (fileBytes.slice 33 65)
  emit (.printf "HMAC:\t\t\t %x" [hmacSha256.read mem])
  emit (.printfInt byteCountLabel hmacSha256.len)
  let iv ← check (fileBytes.slice 65 81)
  emit (.printf "IV:\t\t\t %x" [iv.read mem])
  emit (.printfInt byteCountLabel iv.len)
  let encryptedKeySet ← check (fileBytes.sliceFrom 81)
  emit (.printf "Encrypted key set:\t %x" [encryptedKeySet.read mem])
  emit (.printfInt byteCountLabel encryptedKeySet.len)
  emit (.println "------------")
  let iterations := 200000
  let keyLen := 64
  let derivedKey := deriveKey sha1 password (salt.read mem) iterations keyLen
  emit (.printf "Derived key:\t\t %x" [derivedKey])
  emit (.printfInt byteCountLabel derivedKey.length)
  let (mem, ivAndEncryptedKeySet) := goAppend mem iv encryptedKeySet
  emit (.printf "IV & encrypted key set:\t %x" [ivAndEncryptedKeySet])
  emit (.printfInt byteCountLabel ivAndEncryptedKeySet.length)
  let last128Bytes ← check (fileBytes.sliceFrom ((fileBytes.len : Int) - 128))
  emit (.printf "Last 128 bytes of file:\t %x" [last128Bytes.read mem])
  emit (.printfInt byteCountLabel last128Bytes.len)
  let macKey1 ← check (bytesFrom derivedKey 32)
  let calculatedHmacSha256IvEnc := calculateHMACSHA256 sha256 ivAndEncryptedKeySet macKey1
  let macKey2 ← check (bytesFrom derivedKey 32)
  let calculatedHmacSha256Last128 := calculateHMACSHA256 sha256 (last128Bytes.read mem) macKey2
  emit (.println "")
  emit (.println "**One of the below two values should match the HMAC above**")
  emit (.println "(unclear which should match because the file .dat is 209 bytes instead of the expected 193 bytes)")
  emit (.println "")
  emit (.printf "Calculated HMAC of IV & enc key set:\t\t %x\n" [calculatedHmacSha256IvEnc])
  emit (.printf "Calculated HMAC of last 128 bytes of file:\t %x\n" [calculatedHmacSha256Last128])
  emit (.println "")
  if !hmacEqual (hmacSha256.read mem) calculatedHmacSha256IvEnc
      || !hmacEqual (hmacSha256.read mem) calculatedHmacSha256Last128 then
    emit (.println noMatchText)
  else
    emit (.println matchText)
  emit (.println "")
  emit (.println "If there is not a match, either the password is incorrect or the .dat file is corrupt")

/-! ## The quantities the specification names

These follow the wording of the specification's data model (fixed offsets
0/25/33/65/81, MAC-key half = bytes 32..64 of the derived key, candidates A and
B); the theorems below compare them with what `main` computes. -/

namespace Spec

/-- Header: offset `[0,25)`. -/
def header (data : Bytes) : Bytes := data.take 25

/-- Salt: offset `[25,33)`. -/
def salt (data : Bytes) : Bytes := (data.drop 25).take 8

/-- StoredTag: offset `[33,65)`. -/
def storedTag (data : Bytes) : Bytes := (data.drop 33).take 32

/-- InitVector: offset `[65,81)`. -/
def initVector (data : Bytes) : Bytes := (data.drop 65).take 16

/-- EncryptedKeySet: offset `[81, end)`. -/
def encryptedKeySet (data : Bytes) : Bytes := data.drop 81

/-- DerivedKey: the key derived from password and salt with 200,000 iterations
and 64 output bytes. -/
def derivedKey (sha1 : Hash) (password data : Bytes) : Bytes :=
  deriveKey sha1 password (salt data) 200000 64

/-- The MAC-key half: bytes `[32,64)` of the derived key. -/
def macKey (sha1 : Hash) (password data : Bytes) : Bytes :=
  ((derivedKey sha1 password data).drop 32).take 32

/-- Candidate A: HMAC over InitVector concatenated with EncryptedKeySet, keyed
by the MAC-key half. -/
def candidateA (sha1 sha256 : Hash) (password data : Bytes) : Bytes :=
  hmacSum sha256 (macKey sha1 password data) (initVector data ++ encryptedKeySet data)

/-- Candidate B: HMAC over the last 128 bytes of the file, keyed by the MAC-key
half. -/
def candidateB (sha1 sha256 : Hash) (password data : Bytes) : Bytes :=
  hmacSum sha256 (macKey sha1 password data) (data.drop (data.length - 128))

/-- The boolean matchA: candidate A equals the stored tag. -/
def matchA (sha1 sha256 : Hash) (password data : Bytes) : Bool :=
  decide (candidateA sha1 sha256 password data = storedTag data)

/-- The boolean matchB: candidate B equals the stored tag. -/
def matchB (sha1 sha256 : Hash) (password data : Bytes) : Bool :=
  decide (candidateB sha1 sha256 password data = storedTag data)

end Spec

/-! ## Observing a run -/

/-- Whether an event is one of the two verdict lines. -/
def isVerdict (e : Event) : Bool :=
  decide (e = .println noMatchText) || decide (e = .println matchText)

/-- The verdict lines of a trace, in order. -/
def verdictLines (t : List Event) : List Event := t.filter isVerdict

/-- The events of lines 42 to 75 of `main` for a file whose five fields can all
be sliced. -/
def fieldsTrace (path data : Bytes) : List Event :=
  [.readFile path,
   .printf "File bytes:\t\t %x" [data],
   .printfInt byteCountLabel data.length,
   .println "------------",
   .println "File parts according to docs:",
   .printf "Header:\t\t\t %x (or %s in UTF-8)" [data.take 25, data.take 25],
   .printfInt byteCountLabel 25,
   .printf "Salt:\t\t\t %x" [(data.drop 25).take 8],
   .printfInt byteCountLabel 8,
   .printf "HMAC:\t\t\t %x" [(data.drop 33).take 32],
   .printfInt byteCountLabel 32,
   .printf "IV:\t\t\t %x" [(data.drop 65).take 16],
   .printfInt byteCountLabel 16,
   .printf "Encrypted key set:\t %x" [data.drop 81],
   .printfInt byteCountLabel (data.length - 81),
   .println "------------"]

/-- The events of lines 42 to 53 of `main`: the call of `os.ReadFile`, the dump
of the file and the two heading lines. -/
def preambleTrace (path data : Bytes) : List Event :=
  [.readFile path,
   .printf "File bytes:\t\t %x" [data],
   .printfInt byteCountLabel data.length,
   .println "------------",
   .println "File parts according to docs:"]

/-- The events of lines 56 to 69 of `main`, which print the four fields with
fixed bounds as the backing array `mem` of the file buffer shows them: two
events for each of header, salt, HMAC and IV. -/
def fixedFieldEvents (mem : Bytes) : List Event :=
  [.printf "Header:\t\t\t %x (or %s in UTF-8)" [mem.take 25, mem.take 25],
   .printfInt byteCountLabel 25,
   .printf "Salt:\t\t\t %x" [(mem.drop 25).take 8],
   .printfInt byteCountLabel 8,
   .printf "HMAC:\t\t\t %x" [(mem.drop 33).take 32],
   .printfInt byteCountLabel 32,
   .printf "IV:\t\t\t %x" [(mem.drop 65).take 16],
   .printfInt byteCountLabel 16]

/-- The events of a run that prints the preamble and the first `k` of the four
fields with fixed bounds. -/
def shortTrace (path : Bytes) (f : FileBuf) (k : Nat) : List Event :=
  preambleTrace path f.data ++ (fixedFieldEvents f.mem).take (2 * k)

/-- The events of lines 80 to 86 of `main`. -/
def keyTrace (data key : Bytes) : List Event :=
  [.printf "Derived key:\t\t %x" [key],
   .printfInt byteCountLabel key.length,
   .printf "IV & encrypted key set:\t %x" [data.drop 65],
   .printfInt byteCountLabel (data.drop 65).length]

/-- The events of lines 89 to 108 of `main`, given the stored tag and the two
calculated tags. -/
def tagTrace (data tag calcIvEnc calcLast128 : Bytes) : List Event :=
  [.printf "Last 128 bytes of file:\t %x" [data.drop (data.length - 128)],
   .printfInt byteCountLabel 128,
   .println "",
   .println "**One of the below two values should match the HMAC above**",
   .println "(unclear which should match because the file .dat is 209 bytes instead of the expected 193 bytes)",
   .println "",
   .printf "Calculated HMAC of IV & enc key set:\t\t %x\n" [calcIvEnc],
   .printf "Calculated HMAC of last 128 bytes of file:\t %x\n" [calcLast128],
   .println "",
   .println (if tag = calcIvEnc ∧ tag = calcLast128 then matchText else noMatchText),
   .println "",
   .println "If there is not a match, either the password is incorrect or the .dat file is corrupt"]

/-! ## Concrete inputs -/

/-- A hash that maps everything to `n` zero bytes. -/
def zeroHash (n : Nat) (h : 0 < n) : Hash :=
  ⟨n, 64, fun _ => List.replicate n 0, h, by simp⟩

/-- A checksum: `n` copies of the sum of the input bytes modulo 256. -/
def sumHash (n : Nat) (h : 0 < n) : Hash :=
  ⟨n, 64, fun m => List.replicate n (m.foldl (fun a b => a + b) 0), h, by simp⟩

/-- The stand-in for `sha1.New` in the concrete runs: 20-byte digests. -/
def toySha1 : Hash := zeroHash 20 (by decide)

/-- The stand-in for `sha256.New` in the concrete runs: 32-byte digests. -/
def toySha256 : Hash := sumHash 32 (by decide)

/-- What `os.ReadFile` returns for a regular file with contents `data`: its
buffer has capacity `max (len + 1) 512`. -/
def readFileBuf (data : Bytes) : FileBuf :=
  ⟨data, List.replicate (max (data.length + 1) 512 - data.length) 0⟩

/-- A run `arq-keys f p` in a file system where every path holds `data`. -/
def worldWith (data : Bytes) : World :=
  ⟨[[97], [102], [112]], fun _ => .ok (readFileBuf data)⟩

/-- A file of 193 zero bytes. -/
def zeros193 : Bytes := List.replicate 193 0

/-- A file of 209 bytes, all zero except byte 65 (the first byte of the IV). -/
def file209 : Bytes := List.replicate 65 0 ++ [1] ++ List.replicate 143 0

/-- A 193-byte file made for password `p`: 33 zero bytes (header and salt),
then the HMAC of 128 zero bytes under the MAC-key half of the key derived from
`p` and the zero salt, then 128 zero bytes (IV and key set). -/
def taggedFile193 (sha1 sha256 : Hash) : Bytes :=
  List.replicate 33 0
    ++ hmacSum sha256 ((deriveKey sha1 [112] (List.replicate 8 0) 200000 64).drop 32)
        (List.replicate 128 0)
    ++ List.replicate 128 0

/-- A file of 100 zero bytes. -/
def zeros100 : Bytes := List.replicate 100 0

/-- A file of 10 zero bytes. -/
def zeros10 : Bytes := List.replicate 10 0

/-- A run `arq-keys f p` in a file system where no path can be read. -/
def worldUnreadable : World :=
  ⟨[[97], [102], [112]], fun _ => .error "open f: no such file or directory"⟩

/-- A run `arq-keys f` with the password missing. -/
def worldNoPassword : World :=
  ⟨[[97], [102]], fun _ => .ok (readFileBuf zeros193)⟩

/-! ## Sequencing lemmas -/

theorem emit_bind {β : Type} (e : Event) (f : Unit → Prog β) :
    (emit e >>= f) = ⟨e :: (f ()).trace, (f ()).result⟩ := rfl

theorem check_ok_bind {α β : Type} (a : α) (f : α → Prog β) :
    (check (.ok a) >>= f) = f a := rfl

theorem check_error_bind {α β : Type} (e : Halt) (f : α → Prog β) :
    (check (.error e : Except Halt α) >>= f) = ⟨[], .error e⟩ := rfl

theorem pure_bind_prog {α β : Type} (a : α) (f : α → Prog β) :
    ((pure a : Prog α) >>= f) = f a := rfl

theorem halt_bind {α β : Type} (e : Halt) (f : α → Prog β) :
    ((halt e : Prog α) >>= f) = ⟨[], .error e⟩ := rfl

/-! ## Slices of the file buffer -/

theorem read_data (f : FileBuf) (a b c : Nat) (h : a + b ≤ f.data.length) :
    (Slice.mk a b c).read f.mem = (f.data.drop a).take b := by
  simp only [Slice.read, FileBuf.mem]
  rw [List.drop_append_of_le_length (by omega), List.take_append_of_le_length]
  simp; omega

theorem read_whole (f : FileBuf) : f.slice.read f.mem = f.data := by
  simp [Slice.read, FileBuf.mem, FileBuf.slice]

theorem goAppend_adjacent (mem : Bytes) (s t : Slice) (ht : t.off = s.off + s.len)
    (hm : t.off + t.len ≤ mem.length) (hc : s.len + t.len ≤ s.cap) :
    goAppend mem s t = (mem, (mem.drop s.off).take (s.len + t.len)) := by
  have hlen : (t.read mem).length = t.len := by
    simp [Slice.read]; omega
  have hsrc : t.read mem ++ mem.drop (s.off + s.len + t.len)
      = mem.drop (s.off + s.len) := by
    have h := List.take_append_drop t.len (mem.drop (s.off + s.len))
    rw [List.drop_drop] at h
    simpa [Slice.read, ht, Nat.add_comm, Nat.add_left_comm] using h
  have hmem : mem.take (s.off + s.len) ++ t.read mem
      ++ mem.drop (s.off + s.len + (t.read mem).length) = mem := by
    rw [hlen, List.append_assoc, hsrc, List.take_append_drop]
  unfold goAppend
  simp only [hc, if_true]
  rw [hmem]
  rfl

theorem file_slices (f : FileBuf) (hn : 81 ≤ f.data.length) :
    f.slice.sliceTo 25 = .ok ⟨0, 25, f.data.length + f.spare.length⟩
    ∧ f.slice.slice 25 33 = .ok ⟨25, 8, f.data.length + f.spare.length - 25⟩
    ∧ f.slice.slice 33 65 = .ok ⟨33, 32, f.data.length + f.spare.length - 33⟩
    ∧ f.slice.slice 65 81 = .ok ⟨65, 16, f.data.length + f.spare.length - 65⟩
    ∧ f.slice.sliceFrom 81
        = .ok ⟨81, f.data.length - 81, f.data.length + f.spare.length - 81⟩ := by
  refine ⟨?_, ?_, ?_, ?_, ?_⟩ <;>
    simp [Slice.sliceTo, Slice.slice, Slice.sliceFrom, FileBuf.slice] <;> omega

theorem file_last128 (f : FileBuf) (hn : 128 ≤ f.data.length) :
    f.slice.sliceFrom ((f.slice.len : Int) - 128)
      = .ok ⟨f.data.length - 128, 128,
          f.data.length + f.spare.length - (f.data.length - 128)⟩ := by
  have hc : ((f.data.length : Int) - 128) = ((f.data.length - 128 : Nat) : Int) := by omega
  simp only [Slice.sliceFrom, FileBuf.slice, hc, Int.toNat_ofNat]
  rw [if_pos (by omega)]
  simp
  omega

theorem file_last128_short (f : FileBuf) (hn : f.data.length < 128) :
    f.slice.sliceFrom ((f.slice.len : Int) - 128)
      = .error (.panicSliceBounds ((f.data.length : Int) - 128) f.data.length) := by
  simp only [Slice.sliceFrom, FileBuf.slice]
  rw [if_neg (by omega)]

theorem file_sliceFrom81_short (f : FileBuf) (hn : f.data.length < 81) :
    f.slice.sliceFrom 81 = .error (.panicSliceBounds 81 f.data.length) := by
  simp only [Slice.sliceFrom, FileBuf.slice]
  rw [if_neg (by omega)]

theorem file_fixed_ok (f : FileBuf) :
    (25 ≤ f.data.length + f.spare.length →
        f.slice.sliceTo 25 = .ok ⟨0, 25, f.data.length + f.spare.length⟩)
    ∧ (33 ≤ f.data.length + f.spare.length →
        f.slice.slice 25 33 = .ok ⟨25, 8, f.data.length + f.spare.length - 25⟩)
    ∧ (65 ≤ f.data.length + f.spare.length →
        f.slice.slice 33 65 = .ok ⟨33, 32, f.data.length + f.spare.length - 33⟩)
    ∧ (81 ≤ f.data.length + f.spare.length →
        f.slice.slice 65 81 = .ok ⟨65, 16, f.data.length + f.spare.length - 65⟩) := by
  refine ⟨?_, ?_, ?_, ?_⟩ <;> intro h <;>
    simp [Slice.sliceTo, Slice.slice, FileBuf.slice] <;> omega

theorem file_fixed_error (f : FileBuf) :
    (f.data.length + f.spare.length < 25 →
        f.slice.sliceTo 25 = .error (.panicSliceBounds 0 25))
    ∧ (f.data.length + f.spare.length < 33 →
        f.slice.slice 25 33 = .error (.panicSliceBounds 25 33))
    ∧ (f.data.length + f.spare.length < 65 →
        f.slice.slice 33 65 = .error (.panicSliceBounds 33 65))
    ∧ (f.data.length + f.spare.length < 81 →
        f.slice.slice 65 81 = .error (.panicSliceBounds 65 81)) := by
  refine ⟨?_, ?_, ?_, ?_⟩ <;> intro h <;>
    simp [Slice.sliceTo, Slice.slice, FileBuf.slice] <;> omega

theorem file_append (f : FileBuf) (hn : 81 ≤ f.data.length) :
    goAppend f.mem ⟨65, 16, f.data.length + f.spare.length - 65⟩
        ⟨81, f.data.length - 81, f.data.length + f.spare.length - 81⟩
      = (f.mem, f.data.drop 65) := by
  rw [goAppend_adjacent _ _ _ rfl (by simp [FileBuf.mem]; omega) (by simp; omega)]
  have h := read_data f 65 (16 + (f.data.length - 81)) 0 (by omega)
  simp only [Slice.read] at h
  simp only [h]
  rw [List.take_of_length_le (by simp; omega)]

/-! ## Length of the derived key -/

theorem hmacSum_length (h : Hash) (key message : Bytes) :
    (hmacSum h key message).length = h.size := by
  simp [hmacSum, h.digest_length]

theorem pbkdf2Rounds_length (h : Hash) (password : Bytes) (k : Nat) (u t : Bytes)
    (ht : t.length = h.size) :
    (pbkdf2Rounds h password k (u, t)).2.length = h.size := by
  induction k generalizing u t with
  | zero => simpa [pbkdf2Rounds] using ht
  | succ k ih =>
    simp only [pbkdf2Rounds]
    apply ih
    simp [ht, hmacSum_length]

theorem pbkdf2Block_length (h : Hash) (password salt : Bytes) (iter block : Nat) :
    (pbkdf2Block h password salt iter block).length = h.size := by
  unfold pbkdf2Block
  exact pbkdf2Rounds_length h password _ _ _ (hmacSum_length h _ _)

theorem pbkdf2Blocks_length (h : Hash) (password salt : Bytes) (iter first count : Nat) :
    (pbkdf2Blocks h password salt iter first count).length = count * h.size := by
  induction count generalizing first with
  | zero => simp [pbkdf2Blocks]
  | succ c ih => simp [pbkdf2Blocks, ih, pbkdf2Block_length, Nat.succ_mul, Nat.add_comm]

theorem pbkdf2Key_length (h : Hash) (password salt : Bytes) (iter keyLen : Nat) :
    (pbkdf2Key h password salt iter keyLen).length = keyLen := by
  unfold pbkdf2Key
  simp only [List.length_take, pbkdf2Blocks_length]
  have hpos := h.size_pos
  have hdm := Nat.div_add_mod (keyLen + h.size - 1) h.size
  have hlt := Nat.mod_lt (keyLen + h.size - 1) hpos
  rw [Nat.mul_comm] at hdm
  generalize (keyLen + h.size - 1) / h.size * h.size = q at *
  omega

theorem deriveKey_length (sha1 : Hash) (password salt : Bytes) (iterations keyLen : Nat) :
    (deriveKey sha1 password salt iterations keyLen).length = keyLen :=
  pbkdf2Key_length sha1 password salt iterations keyLen

theorem bytesFrom_deriveKey (sha1 : Hash) (password salt : Bytes) (iterations : Nat) :
    bytesFrom (deriveKey sha1 password salt iterations 64) 32
      = .ok ((deriveKey sha1 password salt iterations 64).drop 32) := by
  simp [bytesFrom, deriveKey_length]

theorem macKey_eq (sha1 : Hash) (password data : Bytes) :
    Spec.macKey sha1 password data
      = (deriveKey sha1 password ((data.drop 25).take 8) 200000 64).drop 32 := by
  unfold Spec.macKey Spec.derivedKey Spec.salt
  exact List.take_of_length_le (by simp [deriveKey_length])

theorem iv_append_enc (data : Bytes) :
    Spec.initVector data ++ Spec.encryptedKeySet data = data.drop 65 := by
  unfold Spec.initVector Spec.encryptedKeySet
  have h := List.take_append_drop 16 (data.drop 65)
  rw [List.drop_drop] at h
  simpa using h

/-! ## The runs of `main`, case by case -/

theorem verdict_cond (tag a b : Bytes) :
    ((!hmacEqual tag a || !hmacEqual tag b) = true) ↔ ¬ (tag = a ∧ tag = b) := by
  simp only [hmacEqual, Bool.or_eq_true, Bool.not_eq_true', decide_eq_false_iff_not]
  tauto

theorem main_usage (sha1 sha256 : Hash) (w : World) (h : w.args.length < 3) :
    main sha1 sha256 w = ⟨[.println usageText], .error (.exit 1)⟩ := by
  unfold main
  simp only [h, if_true, emit_bind, halt_bind]

theorem main_read_error (sha1 sha256 : Hash) (w : World) (err : String)
    (h : 3 ≤ w.args.length) (hr : w.readFile (w.args.getD 1 []) = .error err) :
    main sha1 sha256 w = ⟨[.readFile (w.args.getD 1 [])], .error (.panicError err)⟩ := by
  have h3 : ¬ w.args.length < 3 := by omega
  unfold main
  simp only [h3, if_false, emit_bind, halt_bind, pure_bind_prog, hr]

theorem main_long (sha1 sha256 : Hash) (w : World) (file : FileBuf)
    (h : 3 ≤ w.args.length) (hr : w.readFile (w.args.getD 1 []) = .ok file)
    (hn : 128 ≤ file.data.length) :
    main sha1 sha256 w
      = ⟨fieldsTrace (w.args.getD 1 []) file.data
          ++ keyTrace file.data (Spec.derivedKey sha1 (w.args.getD 2 []) file.data)
          ++ tagTrace file.data (Spec.storedTag file.data)
              (Spec.candidateA sha1 sha256 (w.args.getD 2 []) file.data)
              (Spec.candidateB sha1 sha256 (w.args.getD 2 []) file.data),
         .ok ()⟩ := by
  have h3 : ¬ w.args.length < 3 := by omega
  obtain ⟨e1, e2, e3, e4, e5⟩ := file_slices file (by omega)
  have e6 := file_last128 file hn
  have e7 := file_append file (by omega)
  have r1 := fun c => read_data file 0 25 c (by omega)
  have r2 := fun c => read_data file 25 8 c (by omega)
  have r3 := fun c => read_data file 33 32 c (by omega)
  have r4 := fun c => read_data file 65 16 c (by omega)
  have r5 := fun c => read_data file 81 (file.data.length - 81) c (by omega)
  have r6 := fun c => read_data file (file.data.length - 128) 128 c (by omega)
  have t5 : (file.data.drop 81).take (file.data.length - 81) = file.data.drop 81 :=
    List.take_of_length_le (by simp)
  have t6 : (file.data.drop (file.data.length - 128)).take 128
      = file.data.drop (file.data.length - 128) :=
    List.take_of_length_le (by simp; omega)
  unfold main
  simp only [h3, if_false, emit_bind, halt_bind, pure_bind_prog, hr, e1, e2, e3, e4, e5,
    check_ok_bind, e7, e6, bytesFrom_deriveKey, r1, r2, r3, r4, r5, r6, t5, t6, read_whole,
    List.drop_zero]
  simp only [fieldsTrace, keyTrace, tagTrace, Spec.candidateA, Spec.candidateB, macKey_eq,
    iv_append_enc, Spec.derivedKey, Spec.salt, Spec.storedTag, calculateHMACSHA256,
    FileBuf.slice, List.cons_append, List.nil_append]
  split
  · rename_i hc
    rw [verdict_cond] at hc
    simp only [if_neg hc, emit]
  · rename_i hc
    rw [verdict_cond, not_not] at hc
    simp only [if_pos hc, emit]

theorem main_mid (sha1 sha256 : Hash) (w : World) (file : FileBuf)
    (h : 3 ≤ w.args.length) (hr : w.readFile (w.args.getD 1 []) = .ok file)
    (hn : 81 ≤ file.data.length) (hlt : file.data.length < 128) :
    main sha1 sha256 w
      = ⟨fieldsTrace (w.args.getD 1 []) file.data
          ++ keyTrace file.data (Spec.derivedKey sha1 (w.args.getD 2 []) file.data),
         .error (.panicSliceBounds ((file.data.length : Int) - 128) file.data.length)⟩ := by
  have h3 : ¬ w.args.length < 3 := by omega
  obtain ⟨e1, e2, e3, e4, e5⟩ := file_slices file hn
  have e6 := file_last128_short file hlt
  have e7 := file_append file hn
  have r1 := fun c => read_data file 0 25 c (by omega)
  have r2 := fun c => read_data file 25 8 c (by omega)
  have r3 := fun c => read_data file 33 32 c (by omega)
  have r4 := fun c => read_data file 65 16 c (by omega)
  have r5 := fun c => read_data file 81 (file.data.length - 81) c (by omega)
  have t5 : (file.data.drop 81).take (file.data.length - 81) = file.data.drop 81 :=
    List.take_of_length_le (by simp)
  unfold main
  simp only [h3, if_false, emit_bind, halt_bind, pure_bind_prog, hr, e1, e2, e3, e4, e5,
    check_ok_bind, check_error_bind, e7, e6, r1, r2, r3, r4, r5, t5, read_whole, List.drop_zero]
  simp only [fieldsTrace, keyTrace, Spec.derivedKey, Spec.salt, FileBuf.slice,
    List.cons_append, List.nil_append]

theorem verdictLines_fields (path data : Bytes) (rest : List Event) :
    verdictLines (fieldsTrace path data ++ rest) = verdictLines rest := by
  simp [verdictLines, fieldsTrace, isVerdict, noMatchText, matchText, List.filter_cons]

theorem verdictLines_key (data key : Bytes) (rest : List Event) :
    verdictLines (keyTrace data key ++ rest) = verdictLines rest := by
  simp [verdictLines, keyTrace, isVerdict, List.filter_cons]

theorem verdictLines_tag (data tag a b : Bytes) :
    verdictLines (tagTrace data tag a b)
      = [.println (if tag = a ∧ tag = b then matchText else noMatchText)] := by
  by_cases hc : tag = a ∧ tag = b <;>
    simp [verdictLines, tagTrace, isVerdict, noMatchText, matchText, List.filter_cons, hc]

theorem main_short (sha1 sha256 : Hash) (w : World) (file : FileBuf)
    (h : 3 ≤ w.args.length) (hr : w.readFile (w.args.getD 1 []) = .ok file)
    (hn : file.data.length < 81) :
    (file.data.length + file.spare.length < 25 →
        main sha1 sha256 w
          = ⟨shortTrace (w.args.getD 1 []) file 0, .error (.panicSliceBounds 0 25)⟩)
      ∧ (25 ≤ file.data.length + file.spare.length →
          file.data.length + file.spare.length < 33 →
          main sha1 sha256 w
            = ⟨shortTrace (w.args.getD 1 []) file 1, .error (.panicSliceBounds 25 33)⟩)
      ∧ (33 ≤ file.data.length + file.spare.length →
          file.data.length + file.spare.length < 65 →
          main sha1 sha256 w
            = ⟨shortTrace (w.args.getD 1 []) file 2, .error (.panicSliceBounds 33 65)⟩)
      ∧ (65 ≤ file.data.length + file.spare.length →
          file.data.length + file.spare.length < 81 →
          main sha1 sha256 w
            = ⟨shortTrace (w.args.getD 1 []) file 3, .error (.panicSliceBounds 65 81)⟩)
      ∧ (81 ≤ file.data.length + file.spare.length →
          main sha1 sha256 w
            = ⟨shortTrace (w.args.getD 1 []) file 4,
                .error (.panicSliceBounds 81 file.data.length)⟩) := by
  have h3 : ¬ w.args.length < 3 := by omega
  have e5 := file_sliceFrom81_short file hn
  obtain ⟨o1, o2, o3, o4⟩ := file_fixed_ok file
  obtain ⟨x1, x2, x3, x4⟩ := file_fixed_error file
  refine ⟨fun c => ?_, fun c d => ?_, fun c d => ?_, fun c d => ?_, fun c => ?_⟩
  · unfold main
    simp only [h3, if_false, emit_bind, pure_bind_prog, hr, read_whole, check_error_bind, x1 c]
    simp [shortTrace, preambleTrace, read_whole, FileBuf.slice]
  · unfold main
    simp only [h3, if_false, emit_bind, pure_bind_prog, hr, read_whole, check_error_bind, check_ok_bind,
      o1 c, x2 d]
    simp [shortTrace, preambleTrace, fixedFieldEvents, read_whole, FileBuf.slice, Slice.read]
  · unfold main
    simp only [h3, if_false, emit_bind, pure_bind_prog, hr, read_whole, check_error_bind, check_ok_bind,
      o1 (by omega), o2 c, x3 d]
    simp [shortTrace, preambleTrace, fixedFieldEvents, read_whole, FileBuf.slice, Slice.read]
  · unfold main
    simp only [h3, if_false, emit_bind, pure_bind_prog, hr, read_whole, check_error_bind, check_ok_bind,
      o1 (by omega), o2 (by omega), o3 c, x4 d]
    simp [shortTrace, preambleTrace, fixedFieldEvents, read_whole, FileBuf.slice, Slice.read]
  · unfold main
    simp only [h3, if_false, emit_bind, pure_bind_prog, hr, read_whole, check_error_bind, check_ok_bind,
      o1 (by omega), o2 (by omega), o3 (by omega), o4 c, e5]
    simp [shortTrace, preambleTrace, fixedFieldEvents, read_whole, FileBuf.slice, Slice.read]

theorem shortTrace_props (path : Bytes) (f : FileBuf) (k : Nat) :
    verdictLines (shortTrace path f k) = []
      ∧ (shortTrace path f k).head? = some (.readFile path)
      ∧ Event.println usageText ∉ shortTrace path f k := by
  have hsub : ∀ e ∈ (fixedFieldEvents f.mem).take (2 * k), e ∈ fixedFieldEvents f.mem :=
    fun e he => List.mem_of_mem_take he
  have hfix : ∀ e ∈ fixedFieldEvents f.mem,
      isVerdict e = false ∧ e ≠ Event.println usageText := by
    intro e he
    simp only [fixedFieldEvents, List.mem_cons, List.mem_singleton, List.not_mem_nil,
      or_false] at he
    rcases he with rfl | rfl | rfl | rfl | rfl | rfl | rfl | rfl <;>
      simp [isVerdict]
  refine ⟨?_, rfl, ?_⟩
  · have h1 : (preambleTrace path f.data).filter isVerdict = [] := by
      simp [preambleTrace, isVerdict, noMatchText, matchText, List.filter_cons]
    have h2 : ((fixedFieldEvents f.mem).take (2 * k)).filter isVerdict = [] :=
      List.filter_eq_nil_iff.2 (fun e he => by simp [(hfix e (hsub e he)).1])
    unfold verdictLines shortTrace
    rw [List.filter_append, h1, h2]
    rfl
  · unfold shortTrace
    rw [List.mem_append]
    rintro (hp | hq)
    · simp [preambleTrace, usageText] at hp
    · exact (hfix _ (hsub _ hq)).2 rfl

theorem main_short_trace (sha1 sha256 : Hash) (w : World) (file : FileBuf)
    (h : 3 ≤ w.args.length) (hr : w.readFile (w.args.getD 1 []) = .ok file)
    (hn : file.data.length < 81) :
    ∃ k lo hi, main sha1 sha256 w
      = ⟨shortTrace (w.args.getD 1 []) file k, .error (.panicSliceBounds lo hi)⟩ := by
  obtain ⟨c0, c1, c2, c3, c4⟩ := main_short sha1 sha256 w file h hr hn
  by_cases a : file.data.length + file.spare.length < 25
  · exact ⟨0, _, _, c0 a⟩
  by_cases b : file.data.length + file.spare.length < 33
  · exact ⟨1, _, _, c1 (by omega) b⟩
  by_cases c : file.data.length + file.spare.length < 65
  · exact ⟨2, _, _, c2 (by omega) c⟩
  by_cases d : file.data.length + file.spare.length < 81
  · exact ⟨3, _, _, c3 (by omega) d⟩
  · exact ⟨4, _, _, c4 (by omega)⟩

/-! ## The concrete hashes -/

theorem pbkdf2Rounds_toy (password : Bytes) (k : Nat) :
    pbkdf2Rounds toySha1 password k (List.replicate 20 0, List.replicate 20 0)
      = (List.replicate 20 0, List.replicate 20 0) := by
  induction k with
  | zero => rfl
  | succ k ih =>
    have hx : List.zipWith (fun a b : Byte => a ^^^ b) (List.replicate 20 0)
        (List.replicate 20 0) = List.replicate 20 0 := by decide
    have hu : ∀ u, hmacSum toySha1 password u = List.replicate 20 0 := fun _ => rfl
    simp only [pbkdf2Rounds, hu, hx]
    exact ih

theorem deriveKey_toy (password salt : Bytes) (iterations : Nat) :
    deriveKey toySha1 password salt iterations 64 = List.replicate 64 0 := by
  have hb : ∀ block, pbkdf2Block toySha1 password salt iterations block
      = List.replicate 20 0 := by
    intro block
    have hu : ∀ u, hmacSum toySha1 password u = List.replicate 20 0 := fun _ => rfl
    simp only [pbkdf2Block, hu, pbkdf2Rounds_toy]
  have hs : toySha1.size = 20 := rfl
  simp only [deriveKey, pbkdf2Key, hs, pbkdf2Blocks, hb]
  decide

theorem candidateA_toy (password data : Bytes) :
    Spec.candidateA toySha1 toySha256 password data
      = hmacSum toySha256 (List.replicate 32 0) (data.drop 65) := by
  simp only [Spec.candidateA, macKey_eq, deriveKey_toy, iv_append_enc]
  rfl

theorem candidateB_toy (password data : Bytes) :
    Spec.candidateB toySha1 toySha256 password data
      = hmacSum toySha256 (List.replicate 32 0) (data.drop (data.length - 128)) := by
  simp only [Spec.candidateB, macKey_eq, deriveKey_toy]
  rfl

theorem candidateB_eq_A (sha1 sha256 : Hash) (password data : Bytes)
    (hn : data.length = 193) :
    Spec.candidateB sha1 sha256 password data = Spec.candidateA sha1 sha256 password data := by
  simp only [Spec.candidateA, Spec.candidateB, iv_append_enc, hn]

set_option maxRecDepth 100000

theorem candidateA_zeros193 :
    Spec.candidateA toySha1 toySha256 [112] zeros193 = Spec.storedTag zeros193 := by
  rw [candidateA_toy]; decide

theorem candidateA_file209 :
    Spec.candidateA toySha1 toySha256 [112] file209 ≠ Spec.storedTag file209 := by
  rw [candidateA_toy]; decide

theorem candidateB_file209 :
    Spec.candidateB toySha1 toySha256 [112] file209 = Spec.storedTag file209 := by
  rw [candidateB_toy]; decide

theorem verdict_long (sha1 sha256 : Hash) (w : World) (file : FileBuf)
    (h : 3 ≤ w.args.length) (hr : w.readFile (w.args.getD 1 []) = .ok file)
    (hn : 128 ≤ file.data.length) :
    verdictLines (main sha1 sha256 w).trace
      = [.println (if Spec.storedTag file.data
              = Spec.candidateA sha1 sha256 (w.args.getD 2 []) file.data
            ∧ Spec.storedTag file.data
              = Spec.candidateB sha1 sha256 (w.args.getD 2 []) file.data
          then matchText else noMatchText)] := by
  rw [main_long sha1 sha256 w file h hr hn]
  simp only [List.append_assoc, verdictLines_fields, verdictLines_key, verdictLines_tag]

theorem verdictLines_mid (path data key : Bytes) :
    verdictLines (fieldsTrace path data ++ keyTrace data key) = [] := by
  have hk := verdictLines_key data key []
  rw [List.append_nil] at hk
  rw [verdictLines_fields, hk]
  rfl

theorem usage_not_in_long (path data key tag a b : Bytes) :
    Event.println usageText
      ∉ fieldsTrace path data ++ keyTrace data key ++ tagTrace data tag a b := by
  unfold tagTrace
  generalize hv : (if tag = a ∧ tag = b then matchText else noMatchText) = v
  have hcases : v = matchText ∨ v = noMatchText := by
    rw [← hv]
    split
    · exact Or.inl rfl
    · exact Or.inr rfl
  rcases hcases with rfl | rfl <;>
    simp [fieldsTrace, keyTrace, usageText, matchText, noMatchText]

theorem usage_not_in_mid (path data key : Bytes) :
    Event.println usageText ∉ fieldsTrace path data ++ keyTrace data key := by
  simp [fieldsTrace, keyTrace, usageText]

theorem tagged_layout (t : Bytes) (hT : t.length = 32) :
    (List.replicate 33 (0 : Byte) ++ t ++ List.replicate 128 0).length = 193
      ∧ ((List.replicate 33 (0 : Byte) ++ t ++ List.replicate 128 0).drop 25).take 8
          = List.replicate 8 0
      ∧ ((List.replicate 33 (0 : Byte) ++ t ++ List.replicate 128 0).drop 33).take 32 = t
      ∧ (List.replicate 33 (0 : Byte) ++ t ++ List.replicate 128 0).drop 65
          = List.replicate 128 0 := by
  have h33 : List.replicate 33 (0 : Byte)
      = List.replicate 25 0 ++ List.replicate 8 0 := by decide
  have d33 : (List.replicate 33 (0 : Byte) ++ t ++ List.replicate 128 0).drop 33
      = t ++ List.replicate 128 0 := by
    rw [List.append_assoc]
    exact List.drop_left' (List.length_replicate _ _)
  refine ⟨?_, ?_, ?_, ?_⟩
  · simp only [List.length_append, List.length_replicate, hT]
  · rw [h33, List.append_assoc, List.append_assoc,
      List.drop_left' (List.length_replicate _ _)]
    exact List.take_left' (List.length_replicate _ _)
  · rw [d33]
    exact List.take_left' hT
  · have h65 : (List.replicate 33 (0 : Byte) ++ t ++ List.replicate 128 0).drop 65
        = ((List.replicate 33 (0 : Byte) ++ t ++ List.replicate 128 0).drop 33).drop 32 := by
      rw [List.drop_drop]
    rw [h65, d33]
    exact List.drop_left' hT

theorem taggedFile193_candidateA (sha1 sha256 : Hash) (hs : sha256.size = 32) :
    (taggedFile193 sha1 sha256).length = 193
      ∧ Spec.candidateA sha1 sha256 [112] (taggedFile193 sha1 sha256)
          = Spec.storedTag (taggedFile193 sha1 sha256) := by
  have hT := hmacSum_length sha256
    ((deriveKey sha1 [112] (List.replicate 8 0) 200000 64).drop 32) (List.replicate 128 0)
  rw [hs] at hT
  obtain ⟨h1, h2, h3, h4⟩ := tagged_layout _ hT
  refine ⟨h1, ?_⟩
  unfold Spec.candidateA Spec.storedTag
  rw [macKey_eq, iv_append_enc]
  unfold taggedFile193
  rw [h2, h3, h4]

theorem verdict_texts_ne : Event.println matchText ≠ Event.println noMatchText := by
  decide

/-! ## The claims -/

/-- C1 (the verdict is "match" when at least one candidate matches): the code
does not do this.  For every file of at least 128 bytes where candidate A
differs from the stored tag and candidate B equals it (matchA = false,
matchB = true), the run completes and its only verdict line is "No match". -/
theorem c1_only_candidateB_matches_prints_no_match (sha1 sha256 : Hash) (w : World)
    (file : FileBuf) (h : 3 ≤ w.args.length)
    (hr : w.readFile (w.args.getD 1 []) = .ok file) (hn : 128 ≤ file.data.length)
    (hA : Spec.matchA sha1 sha256 (w.args.getD 2 []) file.data = false)
    (_hB : Spec.matchB sha1 sha256 (w.args.getD 2 []) file.data = true) :
    (main sha1 sha256 w).result = .ok ()
      ∧ verdictLines (main sha1 sha256 w).trace = [.println noMatchText] := by
  have hA2 : ¬ (Spec.storedTag file.data
      = Spec.candidateA sha1 sha256 (w.args.getD 2 []) file.data) := by
    intro e
    have ht : Spec.matchA sha1 sha256 (w.args.getD 2 []) file.data = true :=
      decide_eq_true e.symm
    rw [hA] at ht
    exact Bool.false_ne_true ht
  refine ⟨?_, ?_⟩
  · rw [main_long sha1 sha256 w file h hr hn]
  · rw [verdict_long sha1 sha256 w file h hr hn, if_neg (fun hc => hA2 hc.1)]

/-- Witness for C1: the 209-byte file `file209` with password `p`, where
candidate A differs from the stored tag and candidate B equals it; the only
verdict line of the run is "No match". -/
theorem c1_only_candidateB_matches_prints_no_match_witness :
    (3 ≤ (worldWith file209).args.length
      ∧ (worldWith file209).readFile ((worldWith file209).args.getD 1 [])
          = .ok (readFileBuf file209)
      ∧ 128 ≤ (readFileBuf file209).data.length
      ∧ Spec.matchA toySha1 toySha256 ((worldWith file209).args.getD 2 [])
          (readFileBuf file209).data = false
      ∧ Spec.matchB toySha1 toySha256 ((worldWith file209).args.getD 2 [])
          (readFileBuf file209).data = true)
      ∧ (main toySha1 toySha256 (worldWith file209)).result = .ok ()
      ∧ verdictLines (main toySha1 toySha256 (worldWith file209)).trace
          = [.println noMatchText] :=
  ⟨⟨by decide, rfl, by decide, decide_eq_false candidateA_file209,
      decide_eq_true candidateB_file209⟩,
   c1_only_candidateB_matches_prints_no_match toySha1 toySha256 (worldWith file209)
     (readFileBuf file209) (by decide) rfl (by decide)
     (decide_eq_false candidateA_file209) (decide_eq_true candidateB_file209)⟩

/-- C2 (correct password, 193-byte file): when the file has exactly 193 bytes
and candidate A equals the stored tag, matchA is true, the calculated tag that
`main` prints for candidate A is the stored tag, the run completes, and its
only verdict line is the success line. -/
theorem c2_match_on_193_byte_file (sha1 sha256 : Hash) (w : World) (file : FileBuf)
    (h : 3 ≤ w.args.length) (hr : w.readFile (w.args.getD 1 []) = .ok file)
    (hn : file.data.length = 193)
    (hA : Spec.candidateA sha1 sha256 (w.args.getD 2 []) file.data
            = Spec.storedTag file.data) :
    Spec.matchA sha1 sha256 (w.args.getD 2 []) file.data = true
      ∧ Event.printf "Calculated HMAC of IV & enc key set:\t\t %x\n"
            [Spec.storedTag file.data] ∈ (main sha1 sha256 w).trace
      ∧ (main sha1 sha256 w).result = .ok ()
      ∧ verdictLines (main sha1 sha256 w).trace = [.println matchText] := by
  have hB := candidateB_eq_A sha1 sha256 (w.args.getD 2 []) file.data hn
  refine ⟨decide_eq_true hA, ?_, ?_, ?_⟩
  · rw [main_long sha1 sha256 w file h hr (by omega), hA]
    simp [tagTrace]
  · rw [main_long sha1 sha256 w file h hr (by omega)]
  · rw [verdict_long sha1 sha256 w file h hr (by omega), hB, hA]
    simp

/-- Witness for C2: the 193-byte all-zero file with password `p`. -/
theorem c2_match_on_193_byte_file_witness :
    (3 ≤ (worldWith zeros193).args.length
      ∧ (worldWith zeros193).readFile ((worldWith zeros193).args.getD 1 [])
          = .ok (readFileBuf zeros193)
      ∧ (readFileBuf zeros193).data.length = 193
      ∧ Spec.candidateA toySha1 toySha256 ((worldWith zeros193).args.getD 2 [])
            (readFileBuf zeros193).data = Spec.storedTag (readFileBuf zeros193).data)
      ∧ (Spec.matchA toySha1 toySha256 ((worldWith zeros193).args.getD 2 [])
            (readFileBuf zeros193).data = true
        ∧ Event.printf "Calculated HMAC of IV & enc key set:\t\t %x\n"
              [Spec.storedTag (readFileBuf zeros193).data]
            ∈ (main toySha1 toySha256 (worldWith zeros193)).trace
        ∧ (main toySha1 toySha256 (worldWith zeros193)).result = .ok ()
        ∧ verdictLines (main toySha1 toySha256 (worldWith zeros193)).trace
            = [.println matchText]) :=
  ⟨⟨by decide, rfl, by decide, candidateA_zeros193⟩,
   c2_match_on_193_byte_file toySha1 toySha256 (worldWith zeros193) (readFileBuf zeros193)
     (by decide) rfl (by decide) candidateA_zeros193⟩

/-- C3 (layout): for a file of at least 81 bytes the run of `main` starts with
the events of `fieldsTrace`, which print header = file[0:25], salt =
file[25:33], stored tag = file[33:65], IV = file[65:81] and encrypted key set =
file[81:n] with the lengths 25, 8, 32, 16 and n - 81; these byte strings have
exactly those lengths (128 for the key set of a 209-byte file) and concatenate
back to the whole file. -/
theorem c3_layout_fields (sha1 sha256 : Hash) (w : World) (file : FileBuf)
    (h : 3 ≤ w.args.length) (hr : w.readFile (w.args.getD 1 []) = .ok file)
    (hn : 81 ≤ file.data.length) :
    fieldsTrace (w.args.getD 1 []) file.data <+: (main sha1 sha256 w).trace
      ∧ (Spec.header file.data = file.data.take 25
          ∧ Spec.salt file.data = (file.data.drop 25).take 8
          ∧ Spec.storedTag file.data = (file.data.drop 33).take 32
          ∧ Spec.initVector file.data = (file.data.drop 65).take 16
          ∧ Spec.encryptedKeySet file.data = file.data.drop 81)
      ∧ ((file.data.take 25).length = 25
          ∧ ((file.data.drop 25).take 8).length = 8
          ∧ ((file.data.drop 33).take 32).length = 32
          ∧ ((file.data.drop 65).take 16).length = 16
          ∧ (file.data.drop 81).length = file.data.length - 81
          ∧ (file.data.length = 209 → (file.data.drop 81).length = 128))
      ∧ file.data.take 25 ++ (file.data.drop 25).take 8 ++ (file.data.drop 33).take 32
          ++ (file.data.drop 65).take 16 ++ file.data.drop 81 = file.data := by
  refine ⟨?_, ⟨rfl, rfl, rfl, rfl, rfl⟩, ?_, ?_⟩
  · by_cases hl : 128 ≤ file.data.length
    · rw [main_long sha1 sha256 w file h hr hl, List.append_assoc]
      exact List.prefix_append _ _
    · rw [main_mid sha1 sha256 w file h hr hn (by omega)]
      exact List.prefix_append _ _
  · refine ⟨?_, ?_, ?_, ?_, ?_, fun h209 => ?_⟩ <;>
      simp only [List.length_take, List.length_drop] <;> omega
  · have k1 := List.take_append_drop 25 file.data
    have k2 := List.take_append_drop 8 (file.data.drop 25)
    have k3 := List.take_append_drop 32 (file.data.drop 33)
    have k4 := List.take_append_drop 16 (file.data.drop 65)
    rw [List.drop_drop] at k2 k3 k4
    simp only [Nat.reduceAdd] at k2 k3 k4
    rw [List.append_assoc, List.append_assoc, List.append_assoc, k4, k3, k2, k1]

/-- Witness for C3: the 100-byte all-zero file (at least 81 bytes). -/
theorem c3_layout_fields_witness :
    (3 ≤ (worldWith zeros100).args.length
      ∧ (worldWith zeros100).readFile ((worldWith zeros100).args.getD 1 [])
          = .ok (readFileBuf zeros100)
      ∧ 81 ≤ (readFileBuf zeros100).data.length)
      ∧ fieldsTrace ((worldWith zeros100).args.getD 1 []) (readFileBuf zeros100).data
          <+: (main toySha1 toySha256 (worldWith zeros100)).trace :=
  ⟨⟨by decide, rfl, by decide⟩,
   (c3_layout_fields toySha1 toySha256 (worldWith zeros100) (readFileBuf zeros100)
     (by decide) rfl (by decide)).1⟩

/-- C4 as stated fails (files shorter than 128 bytes get a reported format
error instead of a slice panic): on the 100-byte all-zero file the run prints
the fields, the derived key and the concatenation of IV and key set, reports no
error, and stops at `fileBytes[len(fileBytes)-128:]` with the run-time panic
"slice bounds out of range [-28:]". -/
theorem c4_short_file_panics_counterexample :
    main toySha1 toySha256 (worldWith zeros100)
      = ⟨fieldsTrace [102] zeros100
            ++ keyTrace zeros100 (Spec.derivedKey toySha1 [112] zeros100),
          .error (.panicSliceBounds (-28) 100)⟩ :=
  main_mid toySha1 toySha256 (worldWith zeros100) (readFileBuf zeros100)
    (by decide) rfl (by decide) (by decide)

/-- C4 as amended: for every file shorter than 128 bytes the run of `main`
reports no format error, stops with the run-time panic "slice bounds out of
range" and produces no verdict line.  With 81 <= n < 128 the whole run is the
events of the five fields, the derived key and IV ++ key set, and the panic is
the one of `fileBytes[len(fileBytes)-128:]`.  With n < 81 the whole run is the
preamble and the fields with fixed bounds that fit the capacity of the buffer:
the panic is the one of `fileBytes[81:]` when the capacity is at least 81, and
otherwise the one of the first of `fileBytes[:25]`, `fileBytes[25:33]`,
`fileBytes[33:65]`, `fileBytes[65:81]` whose high index exceeds the
capacity. -/
theorem c4_short_file_panics (sha1 sha256 : Hash) (w : World) (file : FileBuf)
    (h : 3 ≤ w.args.length) (hr : w.readFile (w.args.getD 1 []) = .ok file)
    (hn : file.data.length < 128) :
    (∃ lo hi, (main sha1 sha256 w).result = .error (.panicSliceBounds lo hi))
      ∧ verdictLines (main sha1 sha256 w).trace = []
      ∧ (81 ≤ file.data.length →
          main sha1 sha256 w
            = ⟨fieldsTrace (w.args.getD 1 []) file.data
                ++ keyTrace file.data (Spec.derivedKey sha1 (w.args.getD 2 []) file.data),
               .error (.panicSliceBounds ((file.data.length : Int) - 128)
                  file.data.length)⟩)
      ∧ (file.data.length < 81 →
          (file.data.length + file.spare.length < 25 →
              main sha1 sha256 w
                = ⟨shortTrace (w.args.getD 1 []) file 0, .error (.panicSliceBounds 0 25)⟩)
            ∧ (25 ≤ file.data.length + file.spare.length →
                file.data.length + file.spare.length < 33 →
                main sha1 sha256 w
                  = ⟨shortTrace (w.args.getD 1 []) file 1,
                      .error (.panicSliceBounds 25 33)⟩)
            ∧ (33 ≤ file.data.length + file.spare.length →
                file.data.length + file.spare.length < 65 →
                main sha1 sha256 w
                  = ⟨shortTrace (w.args.getD 1 []) file 2,
                      .error (.panicSliceBounds 33 65)⟩)
            ∧ (65 ≤ file.data.length + file.spare.length →
                file.data.length + file.spare.length < 81 →
                main sha1 sha256 w
                  = ⟨shortTrace (w.args.getD 1 []) file 3,
                      .error (.panicSliceBounds 65 81)⟩)
            ∧ (81 ≤ file.data.length + file.spare.length →
                main sha1 sha256 w
                  = ⟨shortTrace (w.args.getD 1 []) file 4,
                      .error (.panicSliceBounds 81 file.data.length)⟩)) := by
  refine ⟨?_, ?_, fun hge => main_mid sha1 sha256 w file h hr hge hn,
    fun hs => main_short sha1 sha256 w file h hr hs⟩
  · by_cases hs : file.data.length < 81
    · obtain ⟨k, lo, hi, e⟩ := main_short_trace sha1 sha256 w file h hr hs
      exact ⟨lo, hi, by rw [e]⟩
    · exact ⟨_, _, by rw [main_mid sha1 sha256 w file h hr (by omega) hn]⟩
  · by_cases hs : file.data.length < 81
    · obtain ⟨k, lo, hi, e⟩ := main_short_trace sha1 sha256 w file h hr hs
      rw [e]
      exact (shortTrace_props _ _ _).1
    · rw [main_mid sha1 sha256 w file h hr (by omega) hn]
      exact verdictLines_mid _ _ _

/-- Witness for C4 as amended: the 10-byte all-zero file in the 512-byte buffer
of `os.ReadFile`; the run prints the preamble and the four fields with fixed
bounds and stops at `fileBytes[81:]`. -/
theorem c4_short_file_panics_witness :
    (3 ≤ (worldWith zeros10).args.length
      ∧ (worldWith zeros10).readFile ((worldWith zeros10).args.getD 1 [])
          = .ok (readFileBuf zeros10)
      ∧ (readFileBuf zeros10).data.length < 128)
      ∧ verdictLines (main toySha1 toySha256 (worldWith zeros10)).trace = []
      ∧ main toySha1 toySha256 (worldWith zeros10)
          = ⟨shortTrace ((worldWith zeros10).args.getD 1 []) (readFileBuf zeros10) 4,
              .error (.panicSliceBounds 81 (readFileBuf zeros10).data.length)⟩ :=
  ⟨⟨by decide, rfl, by decide⟩,
   (c4_short_file_panics toySha1 toySha256 (worldWith zeros10) (readFileBuf zeros10)
     (by decide) rfl (by decide)).2.1,
   ((c4_short_file_panics toySha1 toySha256 (worldWith zeros10) (readFileBuf zeros10)
     (by decide) rfl (by decide)).2.2.2 (by decide)).2.2.2.2 (by decide)⟩

/-- C5 (the two candidates): for a file of n >= 128 bytes the two calculated
tags that `main` prints are `calculateHMACSHA256` of IV ++ encrypted key set and
of the last 128 bytes, both keyed by the MAC-key half of the derived key; the
first message is the file suffix file[65:n], the second has 128 bytes, the
MAC-key half is `derivedKey[32:]` and has 32 bytes; and
`calculateHMACSHA256(message, key)` is the HMAC of `message` under `key`. -/
theorem c5_candidates (sha1 sha256 : Hash) (w : World) (file : FileBuf)
    (h : 3 ≤ w.args.length) (hr : w.readFile (w.args.getD 1 []) = .ok file)
    (hn : 128 ≤ file.data.length) :
    Event.printf "Calculated HMAC of IV & enc key set:\t\t %x\n"
          [calculateHMACSHA256 sha256
            (Spec.initVector file.data ++ Spec.encryptedKeySet file.data)
            (Spec.macKey sha1 (w.args.getD 2 []) file.data)]
        ∈ (main sha1 sha256 w).trace
      ∧ Event.printf "Calculated HMAC of last 128 bytes of file:\t %x\n"
          [calculateHMACSHA256 sha256 (file.data.drop (file.data.length - 128))
            (Spec.macKey sha1 (w.args.getD 2 []) file.data)]
        ∈ (main sha1 sha256 w).trace
      ∧ Spec.initVector file.data ++ Spec.encryptedKeySet file.data = file.data.drop 65
      ∧ (file.data.drop (file.data.length - 128)).length = 128
      ∧ Spec.macKey sha1 (w.args.getD 2 []) file.data
          = (deriveKey sha1 (w.args.getD 2 []) (Spec.salt file.data) 200000 64).drop 32
      ∧ (Spec.macKey sha1 (w.args.getD 2 []) file.data).length = 32
      ∧ (∀ message key : Bytes, calculateHMACSHA256 sha256 message key
          = sha256.digest
              ((((if key.length > sha256.blockSize then sha256.digest key else key)
                    ++ List.replicate sha256.blockSize 0).take sha256.blockSize).map
                  (fun b => b ^^^ 0x5c)
                ++ sha256.digest
                  ((((if key.length > sha256.blockSize then sha256.digest key else key)
                        ++ List.replicate sha256.blockSize 0).take sha256.blockSize).map
                      (fun b => b ^^^ 0x36)
                    ++ message))) := by
  have hm := main_long sha1 sha256 w file h hr hn
  refine ⟨?_, ?_, iv_append_enc _, ?_, macKey_eq _ _ _, ?_, fun _ _ => rfl⟩
  · rw [hm]
    simp [tagTrace, Spec.candidateA, calculateHMACSHA256]
  · rw [hm]
    simp [tagTrace, Spec.candidateB, calculateHMACSHA256]
  · simp only [List.length_drop]
    omega
  · rw [macKey_eq]
    simp [deriveKey_length]

/-- Witness for C5: the 209-byte file `file209`. -/
theorem c5_candidates_witness :
    (3 ≤ (worldWith file209).args.length
      ∧ (worldWith file209).readFile ((worldWith file209).args.getD 1 [])
          = .ok (readFileBuf file209)
      ∧ 128 ≤ (readFileBuf file209).data.length)
      ∧ Event.printf "Calculated HMAC of IV & enc key set:\t\t %x\n"
          [calculateHMACSHA256 toySha256
            (Spec.initVector (readFileBuf file209).data
              ++ Spec.encryptedKeySet (readFileBuf file209).data)
            (Spec.macKey toySha1 ((worldWith file209).args.getD 2 [])
              (readFileBuf file209).data)]
        ∈ (main toySha1 toySha256 (worldWith file209)).trace :=
  ⟨⟨by decide, rfl, by decide⟩,
   (c5_candidates toySha1 toySha256 (worldWith file209) (readFileBuf file209)
     (by decide) rfl (by decide)).1⟩

/-- C6 (length of the derived key): for every password and every salt,
`deriveKey(password, salt, 200000, 64)` has exactly 64 bytes, so the slice
`derivedKey[32:]` is in range and has exactly 32 bytes. -/
theorem c6_derived_key_length (sha1 : Hash) (password salt : Bytes) :
    (deriveKey sha1 password salt 200000 64).length = 64
      ∧ bytesFrom (deriveKey sha1 password salt 200000 64) 32
          = .ok ((deriveKey sha1 password salt 200000 64).drop 32)
      ∧ ((deriveKey sha1 password salt 200000 64).drop 32).length = 32 := by
  refine ⟨deriveKey_length _ _ _ _ _, bytesFrom_deriveKey _ _ _ _, ?_⟩
  simp [deriveKey_length]

/-- C7 (no rejection on length): for every readable file of at least 128
bytes, whatever its length, the run of `main` completes normally (no slice is
out of range, nothing stops the run) and produces exactly one verdict line,
which is either the success line or "No match". -/
theorem c7_long_file_completes (sha1 sha256 : Hash) (w : World) (file : FileBuf)
    (h : 3 ≤ w.args.length) (hr : w.readFile (w.args.getD 1 []) = .ok file)
    (hn : 128 ≤ file.data.length) :
    (main sha1 sha256 w).result = .ok ()
      ∧ (verdictLines (main sha1 sha256 w).trace).length = 1
      ∧ (verdictLines (main sha1 sha256 w).trace = [.println matchText]
          ∨ verdictLines (main sha1 sha256 w).trace = [.println noMatchText]) := by
  have hv := verdict_long sha1 sha256 w file h hr hn
  refine ⟨?_, ?_, ?_⟩
  · rw [main_long sha1 sha256 w file h hr hn]
  · rw [hv]
    rfl
  · rw [hv]
    split
    · exact Or.inl rfl
    · exact Or.inr rfl

/-- Witness for C7: the 209-byte file `file209`. -/
theorem c7_long_file_completes_witness :
    (3 ≤ (worldWith file209).args.length
      ∧ (worldWith file209).readFile ((worldWith file209).args.getD 1 [])
          = .ok (readFileBuf file209)
      ∧ 128 ≤ (readFileBuf file209).data.length)
      ∧ (main toySha1 toySha256 (worldWith file209)).result = .ok ()
      ∧ (verdictLines (main toySha1 toySha256 (worldWith file209)).trace).length = 1 :=
  ⟨⟨by decide, rfl, by decide⟩,
   (c7_long_file_completes toySha1 toySha256 (worldWith file209) (readFileBuf file209)
     (by decide) rfl (by decide)).1,
   (c7_long_file_completes toySha1 toySha256 (worldWith file209) (readFileBuf file209)
     (by decide) rfl (by decide)).2.1⟩

/-- C8 (usage error): with fewer than two positional arguments
(`len(os.Args) < 3`) the whole run of `main` is the usage line followed by
`os.Exit(1)`, whatever the file system holds: no file is read and nothing else
is printed.  With two or more positional arguments the first event is the call
of `os.ReadFile`, the usage line is never printed and the run does not end in
`os.Exit(1)`. -/
theorem c8_usage_branch (sha1 sha256 : Hash) (w : World) :
    (w.args.length < 3 →
        main sha1 sha256 w = ⟨[.println usageText], .error (.exit 1)⟩)
      ∧ (3 ≤ w.args.length →
          (main sha1 sha256 w).trace.head? = some (.readFile (w.args.getD 1 []))
            ∧ Event.println usageText ∉ (main sha1 sha256 w).trace
            ∧ (main sha1 sha256 w).result ≠ .error (.exit 1)) := by
  refine ⟨main_usage sha1 sha256 w, fun h => ?_⟩
  cases hr : w.readFile (w.args.getD 1 []) with
  | error err =>
    rw [main_read_error sha1 sha256 w err h hr]
    exact ⟨rfl, by simp, by simp⟩
  | ok file =>
    by_cases hs : file.data.length < 81
    · obtain ⟨k, lo, hi, e⟩ := main_short_trace sha1 sha256 w file h hr hs
      rw [e]
      exact ⟨(shortTrace_props _ _ _).2.1, (shortTrace_props _ _ _).2.2, by simp⟩
    · by_cases hl : file.data.length < 128
      · rw [main_mid sha1 sha256 w file h hr (by omega) hl]
        exact ⟨rfl, usage_not_in_mid _ _ _, by simp⟩
      · rw [main_long sha1 sha256 w file h hr (by omega)]
        exact ⟨rfl, usage_not_in_long _ _ _ _ _ _, by simp⟩

/-- Witness for C8: a run without the password and a run with both arguments. -/
theorem c8_usage_branch_witness :
    (worldNoPassword.args.length < 3
        ∧ main toySha1 toySha256 worldNoPassword
            = ⟨[.println usageText], .error (.exit 1)⟩)
      ∧ (3 ≤ (worldWith zeros193).args.length
        ∧ (main toySha1 toySha256 (worldWith zeros193)).trace.head?
            = some (.readFile ((worldWith zeros193).args.getD 1 []))) :=
  ⟨⟨by decide, (c8_usage_branch toySha1 toySha256 worldNoPassword).1 (by decide)⟩,
   ⟨by decide, ((c8_usage_branch toySha1 toySha256 (worldWith zeros193)).2 (by decide)).1⟩⟩

/-- C9 (the verdict of the code): for a file of at least 128 bytes the only
verdict line of `main` is the success line if matchA and matchB both hold and
"No match" otherwise; so the success line is printed exactly when both
candidates equal the stored tag, and when both fail the verdict is
"No match". -/
theorem c9_verdict_needs_both (sha1 sha256 : Hash) (w : World) (file : FileBuf)
    (h : 3 ≤ w.args.length) (hr : w.readFile (w.args.getD 1 []) = .ok file)
    (hn : 128 ≤ file.data.length) :
    verdictLines (main sha1 sha256 w).trace
        = [.println (if Spec.matchA sha1 sha256 (w.args.getD 2 []) file.data = true
                ∧ Spec.matchB sha1 sha256 (w.args.getD 2 []) file.data = true
              then matchText else noMatchText)]
      ∧ (verdictLines (main sha1 sha256 w).trace = [.println matchText]
          ↔ (Spec.matchA sha1 sha256 (w.args.getD 2 []) file.data = true
              ∧ Spec.matchB sha1 sha256 (w.args.getD 2 []) file.data = true))
      ∧ (Spec.matchA sha1 sha256 (w.args.getD 2 []) file.data = false →
          Spec.matchB sha1 sha256 (w.args.getD 2 []) file.data = false →
          verdictLines (main sha1 sha256 w).trace = [.println noMatchText]) := by
  have hv := verdict_long sha1 sha256 w file h hr hn
  have hiff : (Spec.storedTag file.data
          = Spec.candidateA sha1 sha256 (w.args.getD 2 []) file.data
        ∧ Spec.storedTag file.data
          = Spec.candidateB sha1 sha256 (w.args.getD 2 []) file.data)
      ↔ (Spec.matchA sha1 sha256 (w.args.getD 2 []) file.data = true
        ∧ Spec.matchB sha1 sha256 (w.args.getD 2 []) file.data = true) := by
    unfold Spec.matchA Spec.matchB
    rw [decide_eq_true_iff, decide_eq_true_iff]
    exact ⟨fun ⟨a, b⟩ => ⟨a.symm, b.symm⟩, fun ⟨a, b⟩ => ⟨a.symm, b.symm⟩⟩
  have hmain : verdictLines (main sha1 sha256 w).trace
        = [.println (if Spec.matchA sha1 sha256 (w.args.getD 2 []) file.data = true
                ∧ Spec.matchB sha1 sha256 (w.args.getD 2 []) file.data = true
              then matchText else noMatchText)] := by
    rw [hv]
    by_cases hc : Spec.matchA sha1 sha256 (w.args.getD 2 []) file.data = true
        ∧ Spec.matchB sha1 sha256 (w.args.getD 2 []) file.data = true
    · rw [if_pos hc, if_pos (hiff.2 hc)]
    · rw [if_neg hc, if_neg (fun k => hc (hiff.1 k))]
  refine ⟨hmain, ?_, ?_⟩
  · rw [hmain]
    by_cases hc : Spec.matchA sha1 sha256 (w.args.getD 2 []) file.data = true
        ∧ Spec.matchB sha1 sha256 (w.args.getD 2 []) file.data = true
    · rw [if_pos hc]
      exact ⟨fun _ => hc, fun _ => rfl⟩
    · rw [if_neg hc]
      refine ⟨fun k => ?_, fun k => absurd k hc⟩
      have k1 := (List.cons.inj k).1
      exact absurd k1.symm verdict_texts_ne
  · intro ha _
    rw [hmain, if_neg (fun k => by rw [ha] at k; exact Bool.false_ne_true k.1)]

/-- Witness for C9: the 209-byte file `file209`, where only candidate B
matches. -/
theorem c9_verdict_needs_both_witness :
    (3 ≤ (worldWith file209).args.length
      ∧ (worldWith file209).readFile ((worldWith file209).args.getD 1 [])
          = .ok (readFileBuf file209)
      ∧ 128 ≤ (readFileBuf file209).data.length)
      ∧ (verdictLines (main toySha1 toySha256 (worldWith file209)).trace
            = [.println matchText]
          ↔ (Spec.matchA toySha1 toySha256 ((worldWith file209).args.getD 2 [])
                (readFileBuf file209).data = true
              ∧ Spec.matchB toySha1 toySha256 ((worldWith file209).args.getD 2 [])
                (readFileBuf file209).data = true)) :=
  ⟨⟨by decide, rfl, by decide⟩,
   (c9_verdict_needs_both toySha1 toySha256 (worldWith file209) (readFileBuf file209)
     (by decide) rfl (by decide)).2.1⟩

/-- C10 as stated fails (the two authenticated ranges always differ, so the
success line is never printed): for the 193-byte all-zero file with password
`p` the message of candidate A, IV ++ encrypted key set, is the same byte
string as the last 128 bytes of the file, so the two candidates are equal
whatever the hashes are; with the stand-in hashes both equal the stored tag and
the only verdict line of the run is the success line.  And for every pair of
hashes with 32-byte `sha256` digests the 193-byte file `taggedFile193`, whose
tag is the HMAC of its last 128 bytes, makes the run complete with the success
line as its only verdict line. -/
theorem c10_ranges_coincide_counterexample :
    128 ≤ zeros193.length
      ∧ Spec.initVector zeros193 ++ Spec.encryptedKeySet zeros193
          = zeros193.drop (zeros193.length - 128)
      ∧ (∀ sha1 sha256 : Hash, Spec.candidateB sha1 sha256 [112] zeros193
            = Spec.candidateA sha1 sha256 [112] zeros193)
      ∧ Spec.matchA toySha1 toySha256 [112] zeros193 = true
      ∧ Spec.matchB toySha1 toySha256 [112] zeros193 = true
      ∧ verdictLines (main toySha1 toySha256 (worldWith zeros193)).trace
          = [.println matchText]
      ∧ (∀ sha1 sha256 : Hash, sha256.size = 32 →
          (taggedFile193 sha1 sha256).length = 193
            ∧ (main sha1 sha256 (worldWith (taggedFile193 sha1 sha256))).result = .ok ()
            ∧ verdictLines (main sha1 sha256 (worldWith (taggedFile193 sha1 sha256))).trace
                = [.println matchText]) := by
  have hA := candidateA_zeros193
  have hB : Spec.candidateB toySha1 toySha256 [112] zeros193 = Spec.storedTag zeros193 := by
    rw [candidateB_eq_A toySha1 toySha256 [112] zeros193 (by decide)]
    exact hA
  refine ⟨by decide, by decide,
    fun sha1 sha256 => candidateB_eq_A sha1 sha256 [112] zeros193 (by decide),
    decide_eq_true hA, decide_eq_true hB, ?_, ?_⟩
  · rw [verdict_long toySha1 toySha256 (worldWith zeros193) (readFileBuf zeros193)
      (by decide) rfl (by decide)]
    have hd : (readFileBuf zeros193).data = zeros193 := rfl
    have hp : (worldWith zeros193).args.getD 2 [] = [112] := rfl
    rw [hd, hp, if_pos ⟨hA.symm, hB.symm⟩]
  · intro sha1 sha256 hs
    obtain ⟨hl, hTA⟩ := taggedFile193_candidateA sha1 sha256 hs
    have hTB := candidateB_eq_A sha1 sha256 [112] (taggedFile193 sha1 sha256) hl
    have h3 : 3 ≤ (worldWith (taggedFile193 sha1 sha256)).args.length := Nat.le_refl 3
    have hn : 128 ≤ (readFileBuf (taggedFile193 sha1 sha256)).data.length := by
      show 128 ≤ (taggedFile193 sha1 sha256).length
      omega
    refine ⟨hl, ?_, ?_⟩
    · rw [main_long sha1 sha256 (worldWith (taggedFile193 sha1 sha256))
        (readFileBuf (taggedFile193 sha1 sha256)) h3 rfl hn]
    · rw [verdict_long sha1 sha256 (worldWith (taggedFile193 sha1 sha256))
        (readFileBuf (taggedFile193 sha1 sha256)) h3 rfl hn]
      have hd : (readFileBuf (taggedFile193 sha1 sha256)).data
          = taggedFile193 sha1 sha256 := rfl
      have hp : (worldWith (taggedFile193 sha1 sha256)).args.getD 2 [] = [112] := rfl
      rw [hd, hp, if_pos ⟨hTA.symm, (hTB.trans hTA).symm⟩]

/-- C10 as amended: for a file of n >= 128 bytes `main` prints the message of
candidate A, file[65:n], and the message of candidate B, file[n-128:n]; the two
messages are the same byte string exactly when n = 193, and differ for every
other length.  For n = 193 the only verdict line is the success line exactly
when candidate A equals the stored tag.  For n other than 193 the success line
is printed only if the two different messages have the same HMAC under the
MAC-key half of the derived key; whenever their HMACs differ the only verdict
line is "No match". -/
theorem c10_ranges_differ_unless_193 (sha1 sha256 : Hash) (w : World) (file : FileBuf)
    (h : 3 ≤ w.args.length) (hr : w.readFile (w.args.getD 1 []) = .ok file)
    (hn : 128 ≤ file.data.length) :
    Event.printf "IV & encrypted key set:\t %x" [file.data.drop 65]
        ∈ (main sha1 sha256 w).trace
      ∧ Event.printf "Last 128 bytes of file:\t %x"
          [file.data.drop (file.data.length - 128)] ∈ (main sha1 sha256 w).trace
      ∧ (file.data.drop 65 = file.data.drop (file.data.length - 128)
          ↔ file.data.length = 193)
      ∧ (file.data.length = 193 →
          (verdictLines (main sha1 sha256 w).trace = [.println matchText]
            ↔ Spec.candidateA sha1 sha256 (w.args.getD 2 []) file.data
                = Spec.storedTag file.data))
      ∧ (file.data.length ≠ 193 →
          verdictLines (main sha1 sha256 w).trace = [.println matchText] →
          file.data.drop 65 ≠ file.data.drop (file.data.length - 128)
            ∧ calculateHMACSHA256 sha256 (file.data.drop 65)
                  (Spec.macKey sha1 (w.args.getD 2 []) file.data)
                = calculateHMACSHA256 sha256 (file.data.drop (file.data.length - 128))
                    (Spec.macKey sha1 (w.args.getD 2 []) file.data)
            ∧ calculateHMACSHA256 sha256 (file.data.drop 65)
                  (Spec.macKey sha1 (w.args.getD 2 []) file.data)
                = Spec.storedTag file.data)
      ∧ (file.data.length ≠ 193 →
          calculateHMACSHA256 sha256 (file.data.drop 65)
              (Spec.macKey sha1 (w.args.getD 2 []) file.data)
            ≠ calculateHMACSHA256 sha256 (file.data.drop (file.data.length - 128))
                (Spec.macKey sha1 (w.args.getD 2 []) file.data) →
          verdictLines (main sha1 sha256 w).trace = [.println noMatchText]) := by
  have hm := main_long sha1 sha256 w file h hr hn
  have hv := verdict_long sha1 sha256 w file h hr hn
  have hiff : file.data.drop 65 = file.data.drop (file.data.length - 128)
      ↔ file.data.length = 193 := by
    constructor
    · intro he
      have hl := congrArg List.length he
      simp only [List.length_drop] at hl
      omega
    · intro he
      rw [he]
  have hA : Spec.candidateA sha1 sha256 (w.args.getD 2 []) file.data
      = calculateHMACSHA256 sha256 (file.data.drop 65)
          (Spec.macKey sha1 (w.args.getD 2 []) file.data) := by
    unfold Spec.candidateA calculateHMACSHA256
    rw [iv_append_enc]
  have hB : Spec.candidateB sha1 sha256 (w.args.getD 2 []) file.data
      = calculateHMACSHA256 sha256 (file.data.drop (file.data.length - 128))
          (Spec.macKey sha1 (w.args.getD 2 []) file.data) := rfl
  refine ⟨?_, ?_, hiff, ?_, ?_, ?_⟩
  · rw [hm]
    simp [keyTrace]
  · rw [hm]
    simp [tagTrace]
  · intro he
    have hBA := candidateB_eq_A sha1 sha256 (w.args.getD 2 []) file.data he
    rw [hv, hBA]
    by_cases hc : Spec.candidateA sha1 sha256 (w.args.getD 2 []) file.data
        = Spec.storedTag file.data
    · rw [if_pos ⟨hc.symm, hc.symm⟩]
      exact ⟨fun _ => hc, fun _ => rfl⟩
    · rw [if_neg (fun k => hc k.1.symm)]
      refine ⟨fun k => ?_, fun k => absurd k hc⟩
      have k1 := (List.cons.inj k).1
      exact absurd k1.symm verdict_texts_ne
  · intro hne hmatch
    rw [hv] at hmatch
    by_cases hc : Spec.storedTag file.data
          = Spec.candidateA sha1 sha256 (w.args.getD 2 []) file.data
        ∧ Spec.storedTag file.data
          = Spec.candidateB sha1 sha256 (w.args.getD 2 []) file.data
    · refine ⟨fun e => hne (hiff.1 e), ?_, ?_⟩
      · rw [← hA, ← hB, ← hc.1, ← hc.2]
      · rw [← hA, ← hc.1]
    · rw [if_neg hc] at hmatch
      have k1 := (List.cons.inj hmatch).1
      exact absurd k1.symm verdict_texts_ne
  · intro _ hdiff
    rw [hv, if_neg]
    intro hc
    apply hdiff
    rw [← hA, ← hB, ← hc.1, ← hc.2]

/-- Witness for C10 as amended: the 209-byte file `file209`, whose two messages
differ and whose only verdict line is "No match". -/
theorem c10_ranges_differ_unless_193_witness :
    (3 ≤ (worldWith file209).args.length
      ∧ (worldWith file209).readFile ((worldWith file209).args.getD 1 [])
          = .ok (readFileBuf file209)
      ∧ 128 ≤ (readFileBuf file209).data.length)
      ∧ ((readFileBuf file209).data.drop 65
            = (readFileBuf file209).data.drop ((readFileBuf file209).data.length - 128)
          ↔ (readFileBuf file209).data.length = 193) :=
  ⟨⟨by decide, rfl, by decide⟩,
   (c10_ranges_differ_unless_193 toySha1 toySha256 (worldWith file209) (readFileBuf file209)
     (by decide) rfl (by decide)).2.2.1⟩

/-! ## Further properties -/

/-- Unreadable file: when `os.ReadFile` fails, the run consists of the
call of `os.ReadFile` and stops with `panic(err)`; nothing is printed, in
particular no verdict line. -/
theorem unreadable_file_panics (sha1 sha256 : Hash) (w : World) (err : String)
    (h : 3 ≤ w.args.length) (hr : w.readFile (w.args.getD 1 []) = .error err) :
    main sha1 sha256 w = ⟨[.readFile (w.args.getD 1 [])], .error (.panicError err)⟩
      ∧ verdictLines (main sha1 sha256 w).trace = [] := by
  rw [main_read_error sha1 sha256 w err h hr]
  exact ⟨rfl, rfl⟩

/-- The unreadable-file case at the run in the file system without readable
files. -/
theorem unreadable_file_panics_witness :
    (3 ≤ worldUnreadable.args.length
      ∧ worldUnreadable.readFile (worldUnreadable.args.getD 1 [])
          = .error "open f: no such file or directory")
      ∧ main toySha1 toySha256 worldUnreadable
          = ⟨[.readFile (worldUnreadable.args.getD 1 [])],
              .error (.panicError "open f: no such file or directory")⟩ :=
  ⟨⟨by decide, rfl⟩,
   (unreadable_file_panics toySha1 toySha256 worldUnreadable
     "open f: no such file or directory" (by decide) rfl).1⟩

/-- Append in place: for a file of at least 81 bytes the call
`append(iv, encryptedKeySet...)` on the windows `fileBytes[65:81]` and
`fileBytes[81:]` leaves the backing array of the file unchanged and returns the
bytes file[65:n]. -/
theorem append_keeps_file_buffer (f : FileBuf) (hn : 81 ≤ f.data.length) :
    f.slice.slice 65 81 = .ok ⟨65, 16, f.data.length + f.spare.length - 65⟩
      ∧ f.slice.sliceFrom 81
          = .ok ⟨81, f.data.length - 81, f.data.length + f.spare.length - 81⟩
      ∧ goAppend f.mem ⟨65, 16, f.data.length + f.spare.length - 65⟩
            ⟨81, f.data.length - 81, f.data.length + f.spare.length - 81⟩
          = (f.mem, f.data.drop 65) :=
  ⟨(file_slices f hn).2.2.2.1, (file_slices f hn).2.2.2.2, file_append f hn⟩

/-- The in-place append at the buffer of the 100-byte all-zero file. -/
theorem append_keeps_file_buffer_witness :
    81 ≤ (readFileBuf zeros100).data.length
      ∧ goAppend (readFileBuf zeros100).mem
            ⟨65, 16, (readFileBuf zeros100).data.length
              + (readFileBuf zeros100).spare.length - 65⟩
            ⟨81, (readFileBuf zeros100).data.length - 81,
              (readFileBuf zeros100).data.length
                + (readFileBuf zeros100).spare.length - 81⟩
          = ((readFileBuf zeros100).mem, (readFileBuf zeros100).data.drop 65) :=
  ⟨by decide, (append_keeps_file_buffer (readFileBuf zeros100) (by decide)).2.2⟩

end ArqKeys
